import Mathlib

/-!
Verification of the facilabo-api core against its specification.

Shallow embedding conventions:
* JavaScript strings are modelled as `List Char` (`Str` below); regex searches
  are modelled as explicit left-to-right scans with the same first-match,
  greedy/lazy semantics as the source patterns.
* JavaScript `Date` values are modelled as epoch milliseconds (`Int`), with a
  `tz` parameter giving the server's local-time offset in milliseconds for the
  `new Date(y, m, d, ...)` local-time constructor.
* Asynchronous network calls are modelled by passing the observed outcome of
  each call as an explicit argument.
-/

abbrev Str := List Char

/-- First index at which `pat` occurs as a contiguous sublist of `s`
(the JS `String.indexOf` / unanchored regex literal search). -/
def findSub (pat : Str) : Str → Option Nat
  | [] => if pat = [] then some 0 else none
  | s@(_ :: rest) =>
    if pat.isPrefixOf s then some 0 else (findSub pat rest).map (· + 1)

/-- JS `String.prototype.includes`. -/
def strIncludes (s pat : Str) : Bool := (findSub pat s).isSome

/-- JS `String.prototype.trim` (whitespace stripped from both ends). -/
def strTrim (s : Str) : Str :=
  ((s.dropWhile Char.isWhitespace).reverse.dropWhile Char.isWhitespace).reverse

namespace Metadata

/-! Embedding of `src/api/v1/calendars/metadata/[slug].ts`:
`parseIcsDateToken`, `parseIcsDateValueToDate` and `detectTimePrecision`. -/

inductive TimePrecision where
  | time
  | day
deriving DecidableEq, Repr

structure ParsedDateToken where
  value : Str
  hasValueDateParam : Bool
  isDateOnly : Bool
  isMidnightValue : Bool
  parsedDate : Option Int
deriving DecidableEq, Repr

structure ParsedIcsEvent where
  start : Int
  endMs : Option Int
  dtstart : ParsedDateToken
  dtend : Option ParsedDateToken
  hasMicrosoftAllDay : Bool
deriving DecidableEq, Repr

/-- Days from the epoch of the civil date `(y, m, d)` with `1 ≤ m ≤ 12`
(the standard days-from-civil computation used to model `Date.UTC`). -/
def daysFromCivil (y m d : Int) : Int :=
  let y' := if m ≤ 2 then y - 1 else y
  let era := (if 0 ≤ y' then y' else y' - 399) / 400
  let yoe := y' - era * 400
  let mp := (m + 9) % 12
  let doy := (153 * mp + 2) / 5 + d - 1
  let doe := yoe * 365 + yoe / 4 - yoe / 100 + doy
  era * 146097 + doe - 719468

/-- `Date.UTC(y, month0, d, hh, mm, ss)` in ms, including JS month-overflow
normalization (any integer `month0` is folded into the year). -/
def utcMsOfFields (y month0 d hh mm ss : Int) : Int :=
  let y' := y + Int.fdiv month0 12
  let m' := Int.emod month0 12
  daysFromCivil y' (m' + 1) d * 86400000 + hh * 3600000 + mm * 60000 + ss * 1000

/-- `new Date(y, month0, d, hh, mm, ss)` in epoch ms, where `tz` is the
local-minus-UTC offset in ms of the server's timezone. -/
def localMsOfFields (tz y month0 d hh mm ss : Int) : Int :=
  utcMsOfFields y month0 d hh mm ss - tz

def digitsToInt (s : Str) : Int :=
  s.foldl (fun acc c => acc * 10 + (c.toNat - '0'.toNat)) 0

/-- `parseIcsDateValueToDate`: `YYYYMMDD` → local midnight;
`YYYYMMDDTHHMMSS[Z]` → local / UTC instant; otherwise undefined. -/
def parseIcsDateValueToDate (tz : Int) (value : Str) : Option Int :=
  if value.length = 8 ∧ value.all Char.isDigit then
    some (localMsOfFields tz (digitsToInt (value.take 4))
      (digitsToInt ((value.drop 4).take 2) - 1)
      (digitsToInt ((value.drop 6).take 2)) 0 0 0)
  else if (value.length = 15 ∨ (value.length = 16 ∧ value.getLast? = some 'Z')) ∧
      (value.take 8).all Char.isDigit ∧ value.get? 8 = some 'T' ∧
      ((value.drop 9).take 6).all Char.isDigit then
    let y := digitsToInt (value.take 4)
    let month0 := digitsToInt ((value.drop 4).take 2) - 1
    let d := digitsToInt ((value.drop 6).take 2)
    let hh := digitsToInt ((value.drop 9).take 2)
    let mm := digitsToInt ((value.drop 11).take 2)
    let ss := digitsToInt ((value.drop 13).take 2)
    if value.getLast? = some 'Z' then some (utcMsOfFields y month0 d hh mm ss)
    else some (localMsOfFields tz y month0 d hh mm ss)
  else none

/-- Test for the parameter pattern `;VALUE=DATE` followed by `;` or
end-of-string (`/;VALUE=DATE(?:;|$)/` on the upper-cased parameter part). -/
def hasValueDateSuffix : Str → Bool
  | [] => false
  | s@(_ :: rest) =>
    (";VALUE=DATE".data.isPrefixOf s &&
      (match s.drop 11 with
       | [] => true
       | ';' :: _ => true
       | _ => false)) || hasValueDateSuffix rest

/-- First match of `NAME([^:]*):([^\r\n]+)` in `content`: the parameter part
(before the first `:` after the property name) and the value part (a nonempty
run of non-newline characters after the `:`). -/
def firstPropMatch (name : Str) : Str → Option (Str × Str)
  | [] => none
  | s@(_ :: rest) =>
    (if name.isPrefixOf s then
      let afterName := s.drop name.length
      let params := afterName.takeWhile (· ≠ ':')
      match afterName.drop params.length with
      | ':' :: afterColon =>
        let value := afterColon.takeWhile (fun c => c ≠ '\r' && c ≠ '\n')
        if value = [] then none else some (params, value)
      | _ => none
     else none).orElse (fun _ => firstPropMatch name rest)

def isDateOnlyValue (v : Str) : Bool := v.length = 8 && v.all Char.isDigit

/-- The captured group of `/^\d{8}T(\d{6})Z?$/`. -/
def timePartOfValue (v : Str) : Option Str :=
  if (v.length = 15 ∨ (v.length = 16 ∧ v.getLast? = some 'Z')) ∧
      (v.take 8).all Char.isDigit ∧ v.get? 8 = some 'T' ∧
      ((v.drop 9).take 6).all Char.isDigit then
    some ((v.drop 9).take 6)
  else none

/-- `parseIcsDateToken` from the metadata endpoint. -/
def parseIcsDateToken (tz : Int) (content : Str) (name : Str) :
    Option ParsedDateToken :=
  match firstPropMatch name content with
  | none => none
  | some (params, rawValue) =>
    let paramsUpper := params.map Char.toUpper
    let value := strTrim rawValue
    let dateOnly := isDateOnlyValue value
    let timePart := timePartOfValue value
    let midnight := dateOnly || (timePart == some "000000".data)
    some {
      value := value
      hasValueDateParam := hasValueDateSuffix paramsUpper
      isDateOnly := dateOnly
      isMidnightValue := midnight
      parsedDate := parseIcsDateValueToDate tz value
    }

def dayMs : Int := 24 * 60 * 60 * 1000

/-- `detectTimePrecision`: the ordered five-rule cascade. -/
def detectTimePrecision (e : ParsedIcsEvent) : TimePrecision × String :=
  if e.dtstart.hasValueDateParam then (.day, "rule-1-value-date-param")
  else if e.dtstart.isDateOnly then (.day, "rule-2-date-only")
  else if e.hasMicrosoftAllDay then (.day, "rule-3-microsoft-flag")
  else
    match e.endMs, e.dtend with
    | some endv, some t =>
      if t.isMidnightValue && e.dtstart.isMidnightValue then
        let durationMs := endv - e.start
        if dayMs ≤ durationMs ∧ durationMs % dayMs = 0 then
          (.day, "rule-4-midnight-span")
        else (.time, "rule-5-default-time")
      else (.time, "rule-5-default-time")
    | _, _ => (.time, "rule-5-default-time")

/-- Condition of rule 4 (both endpoints midnight-valued, whole ≥ 24h span). -/
def rule4Condition (e : ParsedIcsEvent) : Prop :=
  ∃ endv t, e.endMs = some endv ∧ e.dtend = some t ∧
    t.isMidnightValue = true ∧ e.dtstart.isMidnightValue = true ∧
    dayMs ≤ endv - e.start ∧ (endv - e.start) % dayMs = 0

/-- Event construction for a single already-unfolded VEVENT body, mirroring
the token/instant assembly in `parseIcsEvents` (the SUMMARY extraction, which
does not influence `detectTimePrecision`, is not repeated here). -/
def mkEventFromContent (tz : Int) (content : Str) : Option ParsedIcsEvent :=
  match parseIcsDateToken tz content "DTSTART".data with
  | none => none
  | some ds =>
    match ds.parsedDate with
    | none => none
    | some st =>
      let de := parseIcsDateToken tz content "DTEND".data
      some {
        start := st
        endMs := de.bind (·.parsedDate)
        dtstart := ds
        dtend := de
        hasMicrosoftAllDay :=
          strIncludes (content.map Char.toUpper)
            "X-MICROSOFT-CDO-ALLDAYEVENT:TRUE".data
      }

/-- A concrete event spanning 30 hours from midnight (UTC-timed tokens). -/
def thirtyHourContent : Str :=
  "DTSTART:20250101T000000Z\r\nDTEND:20250102T060000Z\r\nSUMMARY:X".data

end Metadata

namespace Metadata

/-- C1: `detectTimePrecision` applies the ordered rule cascade with the first
matching rule winning: (1) a `VALUE=DATE` parameter on DTSTART gives `day`;
(2) an 8-digit DTSTART value gives `day`; (3) the explicit all-day marker
gives `day`; (4) midnight-valued DTSTART/DTEND a whole number ≥ 1 of 24-hour
periods apart give `day`; (5) everything else gives `time`; and an event
spanning 30 hours from midnight is classified `time`. -/
theorem detectTimePrecision_cascade :
    (∀ e : ParsedIcsEvent, e.dtstart.hasValueDateParam = true →
      detectTimePrecision e = (.day, "rule-1-value-date-param")) ∧
    (∀ e : ParsedIcsEvent, e.dtstart.hasValueDateParam = false →
      e.dtstart.isDateOnly = true →
      detectTimePrecision e = (.day, "rule-2-date-only")) ∧
    (∀ e : ParsedIcsEvent, e.dtstart.hasValueDateParam = false →
      e.dtstart.isDateOnly = false → e.hasMicrosoftAllDay = true →
      detectTimePrecision e = (.day, "rule-3-microsoft-flag")) ∧
    (∀ e : ParsedIcsEvent, e.dtstart.hasValueDateParam = false →
      e.dtstart.isDateOnly = false → e.hasMicrosoftAllDay = false →
      rule4Condition e →
      detectTimePrecision e = (.day, "rule-4-midnight-span")) ∧
    (∀ e : ParsedIcsEvent, e.dtstart.hasValueDateParam = false →
      e.dtstart.isDateOnly = false → e.hasMicrosoftAllDay = false →
      ¬ rule4Condition e →
      detectTimePrecision e = (.time, "rule-5-default-time")) ∧
    (Metadata.mkEventFromContent 0 Metadata.thirtyHourContent).map
      Metadata.detectTimePrecision = some (.time, "rule-5-default-time") := by
  refine ⟨?_, ?_, ?_, ?_, ?_, by decide⟩
  · intro e h1
    simp [detectTimePrecision, h1]
  · intro e h1 h2
    simp [detectTimePrecision, h1, h2]
  · intro e h1 h2 h3
    simp [detectTimePrecision, h1, h2, h3]
  · intro e h1 h2 h3 h4
    obtain ⟨endv, t, he, ht, hm1, hm2, hge, hmod⟩ := h4
    simp [detectTimePrecision, h1, h2, h3, he, ht, hm1, hm2, hge, hmod]
  · intro e h1 h2 h3 h4
    unfold detectTimePrecision
    simp only [h1, h2, h3, Bool.false_eq_true, if_false]
    cases he : e.endMs with
    | none => cases e.dtend <;> rfl
    | some endv =>
      cases ht : e.dtend with
      | none => rfl
      | some t =>
        by_cases hm : (t.isMidnightValue && e.dtstart.isMidnightValue) = true
        · have hm' := hm
          simp only [Bool.and_eq_true] at hm'
          by_cases hd : (dayMs ≤ endv - e.start ∧ (endv - e.start) % dayMs = 0)
          · exact absurd ⟨endv, t, he, ht, hm'.1, hm'.2, hd.1, hd.2⟩ h4
          · simp only [not_and] at hd
            simp [hm]
            intro hle hdvd
            exact hd hle (Int.emod_eq_zero_of_dvd hdvd)
        · simp [hm]

/-- Witness applying the cascade theorem at concrete events. -/
theorem detectTimePrecision_cascade_witness :
    detectTimePrecision ⟨0, none, ⟨"20250101".data, true, false, false, some 0⟩,
        none, false⟩ = (.day, "rule-1-value-date-param") ∧
    detectTimePrecision ⟨0, none, ⟨"20250101".data, false, true, true, some 0⟩,
        none, false⟩ = (.day, "rule-2-date-only") ∧
    detectTimePrecision ⟨0, none, ⟨"x".data, false, false, false, some 0⟩,
        none, true⟩ = (.day, "rule-3-microsoft-flag") ∧
    detectTimePrecision ⟨0, some 86400000, ⟨"a".data, false, false, true, some 0⟩,
        some ⟨"b".data, false, false, true, some 86400000⟩, false⟩ =
      (.day, "rule-4-midnight-span") ∧
    detectTimePrecision ⟨0, some 108000000, ⟨"a".data, false, false, true, some 0⟩,
        some ⟨"b".data, false, false, false, some 108000000⟩, false⟩ =
      (.time, "rule-5-default-time") := by
  refine ⟨?_, ?_, ?_, ?_, ?_⟩
  · exact detectTimePrecision_cascade.1 _ rfl
  · exact detectTimePrecision_cascade.2.1 _ rfl rfl
  · exact detectTimePrecision_cascade.2.2.1 _ rfl rfl rfl
  · exact detectTimePrecision_cascade.2.2.2.1 _ rfl rfl rfl
      ⟨86400000, _, rfl, rfl, rfl, rfl, by decide, by decide⟩
  · refine detectTimePrecision_cascade.2.2.2.2.1 _ rfl rfl rfl ?_
    rintro ⟨endv, t, he, ht, hm1, hm2, hge, hmod⟩
    injection ht with ht'
    subst ht'
    simp at hm1

end Metadata

namespace Retry

/-! Embedding of `src/lib/retry-utils.ts`: `calculateDelay`, `withRetry`,
the default fetch retryability predicate and `fetchWithRetry`.  The wrapped
asynchronous operation is modelled as a function from the attempt index to
its observed outcome (a timeout loss of the `Promise.race` shows up as an
error outcome); `Math.random()` is modelled as a per-attempt value in
`[0, 1)` supplied by the `rand` stream. -/

structure RetryOptions where
  maxRetries : Nat
  initialDelay : ℚ
  maxDelay : ℚ
  backoffMultiplier : ℚ
  jitter : Bool
  isRetryable : String → Bool

/-- `DEFAULT_OPTIONS` (the fields relevant to the control flow). -/
def defaultOptions : RetryOptions := {
  maxRetries := 3
  initialDelay := 1000
  maxDelay := 10000
  backoffMultiplier := 2
  jitter := true
  isRetryable := fun _ => true
}

/-- `calculateDelay`: exponential backoff, capped, with 0–25% jitter, rounded
(`Math.round` is round-half-up). -/
def calculateDelay (attempt : Nat) (o : RetryOptions) (r : ℚ) : Int :=
  let d := o.initialDelay * o.backoffMultiplier ^ attempt
  let d := min d o.maxDelay
  let d := if o.jitter then d * (1 + r * (1 / 4)) else d
  Int.floor (d + 1 / 2)

/-- Trace of one `withRetry` call: final outcome, number of invocations of
the wrapped operation, and the `(attempt, error, nextDelay)` triples passed
to the `onRetry` callback. -/
structure RunTrace (T : Type) where
  result : Except String T
  calls : Nat
  events : List (Nat × String × Int)

/-- The retry loop from attempt `attempt` with `remaining` retries left
(`remaining = 0` means this is the last attempt). -/
def withRetryFrom {T : Type} (op : Nat → Except String T) (o : RetryOptions)
    (rand : Nat → ℚ) : Nat → Nat → RunTrace T
  | attempt, remaining =>
    match op attempt with
    | .ok v => ⟨.ok v, 1, []⟩
    | .error e =>
      match remaining with
      | 0 => ⟨.error e, 1, []⟩
      | r + 1 =>
        if o.isRetryable e then
          let d := calculateDelay attempt o (rand attempt)
          let tail := withRetryFrom op o rand (attempt + 1) r
          ⟨tail.result, tail.calls + 1, (attempt + 1, e, d) :: tail.events⟩
        else ⟨.error e, 1, []⟩

/-- `withRetry`: attempts `0..maxRetries` inclusive. -/
def withRetry {T : Type} (op : Nat → Except String T) (o : RetryOptions)
    (rand : Nat → ℚ) : RunTrace T :=
  withRetryFrom op o rand 0 o.maxRetries

theorem withRetryFrom_allFail {T : Type} (op : Nat → Except String T)
    (o : RetryOptions) (rand : Nat → ℚ) (errs : Nat → String)
    (hop : ∀ i, op i = .error (errs i))
    (hre : ∀ i, o.isRetryable (errs i) = true) :
    ∀ remaining attempt,
      withRetryFrom op o rand attempt remaining =
        ⟨.error (errs (attempt + remaining)), remaining + 1,
          (List.range' attempt remaining).map
            (fun i => (i + 1, errs i, calculateDelay i o (rand i)))⟩ := by
  intro remaining
  induction remaining with
  | zero =>
    intro attempt
    rw [withRetryFrom, hop attempt]
    rfl
  | succ r ih =>
    intro attempt
    rw [withRetryFrom, hop attempt]
    dsimp only
    rw [if_pos (hre attempt), ih (attempt + 1)]
    have h1 : attempt + 1 + r = attempt + (r + 1) := by omega
    rw [List.range'_succ, List.map_cons, h1]

/-- C2: on an operation whose every invocation fails with a retryable error,
`withRetry` invokes the operation exactly `maxRetries + 1` times, raises the
error of the final attempt, and surfaces the earlier errors only via the
`onRetry` callback (one event per non-final attempt, in order). -/
theorem withRetry_exhausts (T : Type) (op : Nat → Except String T)
    (o : RetryOptions) (rand : Nat → ℚ) (errs : Nat → String)
    (hop : ∀ i, op i = .error (errs i))
    (hre : ∀ i, o.isRetryable (errs i) = true) :
    withRetry op o rand =
      ⟨.error (errs o.maxRetries), o.maxRetries + 1,
        (List.range o.maxRetries).map
          (fun i => (i + 1, errs i, calculateDelay i o (rand i)))⟩ := by
  rw [withRetry, withRetryFrom_allFail op o rand errs hop hre o.maxRetries 0,
    Nat.zero_add, List.range_eq_range']

/-- Witness: a concretely always-failing operation under the default options
(`maxRetries = 3`) is invoked 4 times and the 4th error is raised. -/
theorem withRetry_exhausts_witness :
    withRetry (fun i => (.error (toString i) : Except String Nat))
        defaultOptions (fun _ => 0) =
      ⟨.error (toString 3), 3 + 1,
        (List.range 3).map
          (fun i => (i + 1, toString i,
            calculateDelay i defaultOptions 0))⟩ :=
  withRetry_exhausts Nat (fun i => .error (toString i)) defaultOptions
    (fun _ => 0) (fun i => toString i) (fun _ => rfl) (fun _ => rfl)

end Retry

namespace Retry

structure Response where
  status : Nat
deriving DecidableEq

/-- Outcome of one `fetch(url, ...)` invocation: either the promise rejects
(network/timeout error with a message) or it resolves to a response. -/
inductive FetchOutcome where
  | netErr (msg : String)
  | resp (r : Response)

/-- The default `isRetryable` predicate installed by `fetchWithRetry`:
substring tests on the error message. -/
def defaultFetchIsRetryable (msg : String) : Bool :=
  strIncludes msg.data "fetch".data || strIncludes msg.data "network".data ||
    strIncludes msg.data "timeout".data ||
    strIncludes msg.data "ECONNRESET".data ||
    strIncludes msg.data "ETIMEDOUT".data

/-- The per-attempt operation built by `fetchWithRetry`: a resolved response
with status `≥ 500` is turned into a thrown `Server error: <status>`;
everything else is returned to the caller. -/
def fetchAttemptOp (f : Nat → FetchOutcome) (i : Nat) : Except String Response :=
  match f i with
  | .netErr m => .error m
  | .resp r =>
    if 500 ≤ r.status then .error ("Server error: " ++ toString r.status)
    else .ok r

/-- `fetchWithRetry`: `withRetry` over the fetch attempt, with the caller's
`isRetryable` if supplied and the default predicate otherwise. -/
def fetchWithRetry (f : Nat → FetchOutcome)
    (userIsRetryable : Option (String → Bool)) (o : RetryOptions)
    (rand : Nat → ℚ) : RunTrace Response :=
  withRetry (fetchAttemptOp f)
    { o with isRetryable := userIsRetryable.getD defaultFetchIsRetryable } rand

/-- C3 (bug evidence): with no custom predicate, the error synthesized for an
HTTP 500 response is NOT classified retryable by the default predicate, so
`fetchWithRetry` raises after a single attempt even though `maxRetries = 3`
retries remain; 2xx and 4xx responses are returned without retry. -/
theorem fetchWithRetry_500_not_retried :
    defaultFetchIsRetryable "Server error: 500" = false ∧
    fetchWithRetry (fun _ => .resp ⟨500⟩) none defaultOptions (fun _ => 0) =
      ⟨.error "Server error: 500", 1, []⟩ ∧
    fetchWithRetry (fun _ => .resp ⟨200⟩) none defaultOptions (fun _ => 0) =
      ⟨.ok ⟨200⟩, 1, []⟩ ∧
    fetchWithRetry (fun _ => .resp ⟨404⟩) none defaultOptions (fun _ => 0) =
      ⟨.ok ⟨404⟩, 1, []⟩ :=
  ⟨by decide, rfl, rfl, rfl⟩

end Retry

namespace Cache

/-! Embedding of the generic TTL cache of `v1-utils` (`getCache` /
`setCache` / `getStaleCache`, per-entry TTL in seconds) and of
`InMemoryTTLCache` from the service-search utilities (per-cache TTL in ms).
The JS `Map` is modelled as an association list with `Map.set`'s
replace-or-append semantics; `Date.now()` is an explicit argument. -/

structure CacheEntry (T : Type) where
  data : T
  timestamp : Int
  ttl : Int
deriving DecidableEq

abbrev CacheMap (T : Type) := List (String × CacheEntry T)

def mapGet {T : Type} (m : CacheMap T) (k : String) : Option (CacheEntry T) :=
  (m.find? (fun p => p.1 == k)).map (·.2)

def mapSet {T : Type} : CacheMap T → String → CacheEntry T → CacheMap T
  | [], k, v => [(k, v)]
  | (k', v') :: rest, k, v =>
    if k' = k then (k, v) :: rest else (k', v') :: mapSet rest k v

def mapDelete {T : Type} (m : CacheMap T) (k : String) : CacheMap T :=
  m.filter (fun p => ¬ p.1 == k)

/-- `getCache`: null on miss; on an expired entry (strictly older than
`ttl` seconds) deletes it and returns null; otherwise returns the data.
Returns the (possibly evicted-from) map alongside the read result. -/
def getCache {T : Type} (now : Int) (m : CacheMap T) (k : String) :
    Option T × CacheMap T :=
  match mapGet m k with
  | none => (none, m)
  | some e =>
    if e.ttl * 1000 < now - e.timestamp then (none, mapDelete m k)
    else (some e.data, m)

/-- `setCache` (TTL given in seconds). -/
def setCache {T : Type} (now : Int) (m : CacheMap T) (k : String) (data : T)
    (ttlSeconds : Int) : CacheMap T :=
  mapSet m k ⟨data, now, ttlSeconds⟩

/-- `getStaleCache`: last written value regardless of expiry, no eviction. -/
def getStaleCache {T : Type} (m : CacheMap T) (k : String) : Option T :=
  (mapGet m k).map (·.data)

/-- `InMemoryTTLCache` state: the constructor-supplied TTL in ms plus the
entry map (entries carry only data and timestamp). -/
structure TTLEntry (T : Type) where
  data : T
  timestamp : Int
deriving DecidableEq

structure TTLCacheState (T : Type) where
  ttlMs : Int
  entries : List (String × TTLEntry T)
deriving DecidableEq

def ttlMapGet {T : Type} (m : List (String × TTLEntry T)) (k : String) :
    Option (TTLEntry T) :=
  (m.find? (fun p => p.1 == k)).map (·.2)

def ttlMapSet {T : Type} : List (String × TTLEntry T) → String → TTLEntry T →
    List (String × TTLEntry T)
  | [], k, v => [(k, v)]
  | (k', v') :: rest, k, v =>
    if k' = k then (k, v) :: rest else (k', v') :: ttlMapSet rest k v

/-- `InMemoryTTLCache.get`. -/
def ttlGet {T : Type} (now : Int) (c : TTLCacheState T) (k : String) :
    Option T × TTLCacheState T :=
  match ttlMapGet c.entries k with
  | none => (none, c)
  | some e =>
    if c.ttlMs < now - e.timestamp then
      (none, ⟨c.ttlMs, c.entries.filter (fun p => ¬ p.1 == k)⟩)
    else (some e.data, c)

/-- `InMemoryTTLCache.getStale`. -/
def ttlGetStale {T : Type} (c : TTLCacheState T) (k : String) : Option T :=
  (ttlMapGet c.entries k).map (·.data)

/-- `InMemoryTTLCache.set`. -/
def ttlSet {T : Type} (now : Int) (c : TTLCacheState T) (k : String) (data : T) :
    TTLCacheState T :=
  ⟨c.ttlMs, ttlMapSet c.entries k ⟨data, now⟩⟩

theorem mapGet_mapSet_self {T : Type} (m : CacheMap T) (k : String)
    (v : CacheEntry T) : mapGet (mapSet m k v) k = some v := by
  induction m with
  | nil => simp [mapGet, mapSet, List.find?]
  | cons p rest ih =>
    obtain ⟨k', v'⟩ := p
    by_cases h : k' = k
    · simp [mapSet, h, mapGet, List.find?]
    · rw [mapSet, if_neg h, mapGet, List.find?_cons_of_neg]
      · exact ih
      · simpa using h

theorem mapGet_mapDelete_self {T : Type} (m : CacheMap T) (k : String) :
    mapGet (mapDelete m k) k = none := by
  simp only [mapGet, mapDelete, Option.map_eq_none', List.find?_eq_none,
    List.mem_filter]
  intro p hp
  simpa using hp.2

theorem ttlMapGet_ttlMapSet_self {T : Type} (m : List (String × TTLEntry T))
    (k : String) (v : TTLEntry T) : ttlMapGet (ttlMapSet m k v) k = some v := by
  induction m with
  | nil => simp [ttlMapGet, ttlMapSet, List.find?]
  | cons p rest ih =>
    obtain ⟨k', v'⟩ := p
    by_cases h : k' = k
    · simp [ttlMapSet, h, ttlMapGet, List.find?]
    · rw [ttlMapSet, if_neg h, ttlMapGet, List.find?_cons_of_neg]
      · exact ih
      · simpa using h

/-- C4: writing `(k, v)` at time `t` with time-to-live `ttl`:
a fresh `get` after more than `ttl` has elapsed returns null and removes the
entry from the map; `getStale` before any overwrite returns `v` regardless of
elapsed time and leaves the map untouched; a fresh `get` within `ttl` returns
`v`.  This holds for both the generic seconds-based cache and the ms-based
`InMemoryTTLCache`. -/
theorem cache_get_stale_contract {T : Type} (m : CacheMap T)
    (c : TTLCacheState T) (k : String) (v : T) (t now : Int) (ttl : Int) :
    (ttl * 1000 < now - t →
      getCache now (setCache t m k v ttl) k =
        (none, mapDelete (setCache t m k v ttl) k) ∧
      mapGet ((getCache now (setCache t m k v ttl) k).2) k = none) ∧
    getStaleCache (setCache t m k v ttl) k = some v ∧
    (now - t ≤ ttl * 1000 →
      getCache now (setCache t m k v ttl) k = (some v, setCache t m k v ttl)) ∧
    (c.ttlMs < now - t →
      (ttlGet now (ttlSet t c k v) k).1 = none ∧
      ttlMapGet ((ttlGet now (ttlSet t c k v) k).2).entries k = none) ∧
    ttlGetStale (ttlSet t c k v) k = some v ∧
    (now - t ≤ c.ttlMs → ttlGet now (ttlSet t c k v) k = (some v, ttlSet t c k v)) := by
  have hs : mapGet (setCache t m k v ttl) k = some ⟨v, t, ttl⟩ :=
    mapGet_mapSet_self m k ⟨v, t, ttl⟩
  have hts : ttlMapGet (ttlSet t c k v).entries k = some ⟨v, t⟩ :=
    ttlMapGet_ttlMapSet_self c.entries k ⟨v, t⟩
  refine ⟨fun hexp => ?_, ?_, fun hfresh => ?_, fun hexp => ?_, ?_, fun hfresh => ?_⟩
  · have h1 : getCache now (setCache t m k v ttl) k =
        (none, mapDelete (setCache t m k v ttl) k) := by
      rw [getCache, hs]
      simp [hexp]
    refine ⟨h1, ?_⟩
    rw [h1]
    exact mapGet_mapDelete_self _ k
  · rw [getStaleCache, hs]
    rfl
  · rw [getCache, hs]
    simp [not_lt.mpr hfresh]
  · have h1 : (ttlGet now (ttlSet t c k v) k) =
        (none, ⟨c.ttlMs, (ttlSet t c k v).entries.filter (fun p => ¬ p.1 == k)⟩) := by
      rw [ttlGet, hts]
      simp [ttlSet, hexp]
    refine ⟨by rw [h1], ?_⟩
    rw [h1]
    simp only [ttlMapGet, Option.map_eq_none', List.find?_eq_none,
      List.mem_filter]
    intro p hp
    simpa using hp.2
  · rw [ttlGetStale, hts]
    rfl
  · rw [ttlGet, hts]
    have hnl : ¬ ((ttlSet t c k v).ttlMs < now - t) := by
      simpa [ttlSet] using not_lt.mpr hfresh
    dsimp only
    rw [if_neg hnl]

/-- Witness: a concrete entry with `ttl = 1` second read 1001 ms later is
evicted, its stale read still answers, and a read at 1000 ms is fresh. -/
theorem cache_get_stale_contract_witness :
    (getCache 1001 (setCache 0 ([] : CacheMap Nat) "k" 7 1) "k" =
        (none, mapDelete (setCache 0 ([] : CacheMap Nat) "k" 7 1) "k") ∧
      mapGet ((getCache 1001 (setCache 0 ([] : CacheMap Nat) "k" 7 1) "k").2) "k" =
        none) ∧
    getStaleCache (setCache 0 ([] : CacheMap Nat) "k" 7 1) "k" = some 7 ∧
    getCache 1000 (setCache 0 ([] : CacheMap Nat) "k" 7 1) "k" =
      (some 7, setCache 0 ([] : CacheMap Nat) "k" 7 1) ∧
    (ttlGet 1001 (ttlSet 0 (⟨1000, []⟩ : TTLCacheState Nat) "k" 7) "k").1 = none ∧
    ttlGetStale (ttlSet 0 (⟨1000, []⟩ : TTLCacheState Nat) "k" 7) "k" = some 7 := by
  have h := cache_get_stale_contract ([] : CacheMap Nat)
    (⟨1000, []⟩ : TTLCacheState Nat) "k" 7 0 1001 1
  have h' := cache_get_stale_contract ([] : CacheMap Nat)
    (⟨1000, []⟩ : TTLCacheState Nat) "k" 7 0 1000 1
  exact ⟨h.1 (by decide), h.2.1, h'.2.2.1 (by decide),
    (h.2.2.2.1 (by decide)).1, h.2.2.2.2.1⟩

end Cache

namespace Abuse

/-! Embedding of `trackAbuseRequest` from the abuse monitor.  Environment
configuration (`mode`, thresholds, whether the Upstash counter store is
configured), the identity-derivation outputs (sanitized endpoint/slug and the
truncated one-way hashes of IP and UA) and the pipeline call's observed
outcome are explicit arguments.  Redis pipeline results are modelled as
integers (`INCR` returns integers; `toInt`'s string-to-number branch is
subsumed by the integer value).  The critical-abuse e-mail notification is
fire-and-forget in the source (its failure is swallowed) and does not affect
the returned decision, so it has no counterpart here. -/

inductive Mode where
  | observe
  | enforce
deriving DecidableEq, Repr

inductive Provider where
  | upstash
  | disabled
deriving DecidableEq, Repr

def modeStr : Mode → String
  | .observe => "observe"
  | .enforce => "enforce"

def providerStr : Provider → String
  | .upstash => "upstash"
  | .disabled => "disabled"

structure Metrics where
  endpoint : String
  slug : String
  ipHash : String
  uaHash : String
  isKnownUA : Bool
  global1m : Int
  global5m : Int
  ip1m : Int
  ua1m : Int
deriving DecidableEq, Repr

structure AbuseDecision where
  mode : Mode
  provider : Provider
  blocked : Bool
  reason : Option String
  headers : List (String × String)
  metrics : Option Metrics
deriving DecidableEq, Repr

/-- Abuse thresholds (`getThreshold` fallbacks are the defaults below). -/
structure Thresholds where
  spikeGlobal1m : Int
  burstIpSoft1m : Int
  burstIpHard1m : Int
  spikeUnknownUa1m : Int
deriving DecidableEq, Repr

def defaultThresholds : Thresholds := ⟨6000, 260, 420, 1200⟩

/-- `toInt` applied to an indexed pipeline result (`undefined` → 0,
negative counts clamped to 0). -/
def counterAt (rs : List Int) (i : Nat) : Int := max 0 ((rs.get? i).getD 0)

/-- `trackAbuseRequest`.  The pipeline issues, per window (60s/300s/3600s),
INCR+EXPIRE pairs for the global/slug/ip/ua counters, so in the result array
`global:60s` is at index 0, `ip:60s` at 4, `ua:60s` at 6 and `global:300s`
at 8. -/
def trackAbuseRequest (mode : Mode) (configured knownUA : Bool)
    (endpoint slug ipHash uaHash : String) (th : Thresholds)
    (results : Option (List Int)) : AbuseDecision :=
  let provider : Provider := if configured then .upstash else .disabled
  let headers : List (String × String) :=
    [("X-FacilAbo-Abuse-Mode", modeStr mode),
     ("X-FacilAbo-Abuse-Provider", providerStr provider)]
  if provider = .disabled then
    ⟨mode, provider, false, none, headers, none⟩
  else
    match results with
    | none => ⟨mode, provider, false, none, headers, none⟩
    | some rs =>
      let global1m := counterAt rs 0
      let global5m := counterAt rs 8
      let ip1m := counterAt rs 4
      let ua1m := counterAt rs 6
      let headers := headers ++
        [("X-FacilAbo-Abuse-Window-1m", toString global1m),
         ("X-FacilAbo-Abuse-Window-5m", toString global5m)]
      let critical := th.spikeGlobal1m ≤ global1m ∨ th.burstIpHard1m ≤ ip1m ∨
        (knownUA = false ∧ th.spikeUnknownUa1m ≤ ua1m)
      let warning := ¬ critical ∧ (th.burstIpSoft1m ≤ ip1m ∨
        Int.fdiv th.spikeUnknownUa1m 2 ≤ ua1m)
      let blocked := mode = .enforce ∧ knownUA = false ∧
        (th.burstIpHard1m ≤ ip1m ∨ th.spikeUnknownUa1m ≤ ua1m)
      ⟨mode, provider, decide blocked,
        if decide blocked then some "rate_limit_exceeded" else none,
        headers ++ [("X-FacilAbo-Abuse-Severity",
          if decide critical then "critical"
          else if decide warning then "warning" else "normal")],
        some ⟨endpoint, slug, ipHash, uaHash, knownUA,
          global1m, global5m, ip1m, ua1m⟩⟩

/-- C5 counterexample: with the counter store configured but the pipeline
call failing, the decision is non-blocking but its provider is `upstash`,
not `disabled` as the claim states. -/
theorem trackAbuse_pipelineFailure_provider_not_disabled :
    (trackAbuseRequest .observe true true "metadata" "f1" "aaaa" "bbbb"
        defaultThresholds none).blocked = false ∧
    (trackAbuseRequest .observe true true "metadata" "f1" "aaaa" "bbbb"
        defaultThresholds none).provider = .upstash ∧
    (trackAbuseRequest .observe true true "metadata" "f1" "aaaa" "bbbb"
        defaultThresholds none).provider ≠ .disabled := by
  refine ⟨rfl, rfl, ?_⟩
  intro h
  simp [trackAbuseRequest] at h

/-- C5 amended: whenever the remote counter store is unreachable the decision
is non-blocking; the provider is `disabled` when the store is not configured,
and `upstash` (with `blocked = false`) when it is configured but the pipeline
call fails. -/
theorem trackAbuse_unreachable_nonblocking :
    (∀ mode knownUA endpoint slug ipHash uaHash th results,
      (trackAbuseRequest mode false knownUA endpoint slug ipHash uaHash th
          results).blocked = false ∧
      (trackAbuseRequest mode false knownUA endpoint slug ipHash uaHash th
          results).provider = .disabled) ∧
    (∀ mode knownUA endpoint slug ipHash uaHash th,
      (trackAbuseRequest mode true knownUA endpoint slug ipHash uaHash th
          none).blocked = false ∧
      (trackAbuseRequest mode true knownUA endpoint slug ipHash uaHash th
          none).provider = .upstash) := by
  constructor
  · intro mode knownUA endpoint slug ipHash uaHash th results
    exact ⟨rfl, rfl⟩
  · intro mode knownUA endpoint slug ipHash uaHash th
    exact ⟨rfl, rfl⟩

end Abuse

namespace IcsTransforms

/-! Embedding of `filterEvents` from `src/lib/ics-transforms.ts`.  The global
regex `/BEGIN:VEVENT[\s\S]*?END:VEVENT\r?\n?/g` is modelled as a scan that
repeatedly finds the next `BEGIN:VEVENT`, the earliest following
`END:VEVENT` (the lazy quantifier), and then at most one `\r\n`/`\r`/`\n`;
the recursion is driven by a fuel argument equal to the text length, which
every step strictly decreases below, so the scan is the full match list. -/

def beginMark : Str := "BEGIN:VEVENT".data

def endMark : Str := "END:VEVENT".data

/-- The optional trailing `\r?\n?` of one regex match. -/
def takeNewline (s : Str) : Str × Str :=
  match s with
  | '\r' :: '\n' :: r => (['\r', '\n'], r)
  | '\r' :: r => (['\r'], r)
  | '\n' :: r => (['\n'], r)
  | s => ([], s)

/-- One regex match from the current position: the text before the match,
the matched block, and the remainder; `none` when no further match exists. -/
def nextEventMatch (s : Str) : Option (Str × Str × Str) :=
  match findSub beginMark s with
  | none => none
  | some i =>
    let pre := s.take i
    let afterBegin := s.drop (i + beginMark.length)
    match findSub endMark afterBegin with
    | none => none
    | some j =>
      let mid := afterBegin.take j
      let afterEnd := afterBegin.drop (j + endMark.length)
      let nl := (takeNewline afterEnd).1
      let rest := (takeNewline afterEnd).2
      some (pre, beginMark ++ mid ++ endMark ++ nl, rest)

/-- The full match list of the global regex, with the text before each match
and the remainder after the last one. -/
def collectEventsFuel : Nat → Str → List (Str × Str) × Str
  | 0, s => ([], s)
  | fuel + 1, s =>
    match nextEventMatch s with
    | none => ([], s)
    | some (pre, blk, rest) =>
      let tail := collectEventsFuel fuel rest
      ((pre, blk) :: tail.1, tail.2)

def collectEvents (s : Str) : List (Str × Str) × Str :=
  collectEventsFuel s.length s

/-- `filterEvents`: header (text before the first match) and footer (text
after the last match) kept verbatim, the match region replaced by the
concatenation of the blocks accepted by `shouldKeep`. -/
def filterEvents (s : Str) (shouldKeep : Str → Bool) : Str :=
  let scanned := collectEvents s
  match scanned.1 with
  | [] => s
  | (pre0, _) :: _ =>
    let kept := ((scanned.1.map (·.2)).filter shouldKeep).flatten
    pre0 ++ kept ++ scanned.2

theorem findSub_decomp (pat : Str) :
    ∀ (s : Str) (i : Nat), findSub pat s = some i →
      s = s.take i ++ pat ++ (s.drop i).drop pat.length := by
  intro s
  induction s with
  | nil =>
    intro i h
    rw [findSub] at h
    by_cases hp : pat = ([] : Str)
    · simp [hp] at h ⊢
    · simp [hp] at h
  | cons c rest ih =>
    intro i h
    rw [findSub] at h
    by_cases hp : pat.isPrefixOf (c :: rest) = true
    · rw [if_pos hp] at h
      injection h with h'
      subst h'
      obtain ⟨t, ht⟩ := List.isPrefixOf_iff_prefix.mp hp
      conv_lhs => rw [← ht]
      simp [← ht]
    · rw [if_neg hp] at h
      match hrec : findSub pat rest with
      | none => rw [hrec] at h; simp at h
      | some j =>
        rw [hrec] at h
        simp only [Option.map_some'] at h
        injection h with h'
        subst h'
        have := ih j hrec
        simp only [List.take_succ_cons, List.drop_succ_cons]
        conv_lhs => rw [this]
        simp

theorem takeNewline_decomp (s : Str) :
    (takeNewline s).1 ++ (takeNewline s).2 = s := by
  unfold takeNewline
  split <;> rfl

theorem nextEventMatch_decomp (s pre blk rest : Str)
    (h : nextEventMatch s = some (pre, blk, rest)) :
    s = pre ++ blk ++ rest := by
  rw [nextEventMatch] at h
  match hb : findSub beginMark s with
  | none => rw [hb] at h; simp at h
  | some i =>
    rw [hb] at h
    match he : findSub endMark (s.drop (i + beginMark.length)) with
    | none => simp [he] at h
    | some j =>
      simp only [he, Option.some.injEq, Prod.mk.injEq] at h
      obtain ⟨h1, h2, h3⟩ := h
      subst h1 h2 h3
      have hs := findSub_decomp beginMark s i hb
      have ha := findSub_decomp endMark (s.drop (i + beginMark.length)) j he
      have hnl := takeNewline_decomp
        ((s.drop (i + beginMark.length)).drop (j + endMark.length))
      have hdd : (s.drop i).drop beginMark.length = s.drop (i + beginMark.length) := by
        rw [List.drop_drop, Nat.add_comm]
      have hdd2 : ((s.drop (i + beginMark.length)).drop j).drop endMark.length =
          (s.drop (i + beginMark.length)).drop (j + endMark.length) := by
        rw [List.drop_drop, Nat.add_comm]
      conv_lhs => rw [hs, hdd, ha, hdd2, ← hnl]
      simp only [List.append_assoc]

/-- The scan decomposes the input exactly: the original text is the
concatenation of each match's preceding text and block, followed by the
final remainder. -/
theorem collectEventsFuel_decomp :
    ∀ (fuel : Nat) (s : Str),
      ((collectEventsFuel fuel s).1.map (fun pb => pb.1 ++ pb.2)).flatten ++
        (collectEventsFuel fuel s).2 = s := by
  intro fuel
  induction fuel with
  | zero => intro s; simp [collectEventsFuel]
  | succ f ih =>
    intro s
    rw [collectEventsFuel]
    match hm : nextEventMatch s with
    | none => simp
    | some (pre, blk, rest) =>
      simp only [List.map_cons, List.flatten_cons]
      rw [List.append_assoc, ih rest]
      exact (nextEventMatch_decomp s pre blk rest hm).symm

/-- C6: for a text in which the scan finds at least one
`BEGIN:VEVENT...END:VEVENT` span, `filterEvents` (a) leaves the text before
the first span and after the last span byte-for-byte unchanged, and
(b) replaces the span region with exactly the spans accepted by the
predicate, concatenated in original order; conjunct (a) certifies that the
scanned spans really are a decomposition of the input text. -/
theorem filterEvents_spec (s : Str) (shouldKeep : Str → Bool)
    (pre0 blk0 : Str) (tail : List (Str × Str))
    (h : (collectEvents s).1 = (pre0, blk0) :: tail) :
    s = ((((pre0, blk0) :: tail).map (fun pb => pb.1 ++ pb.2)).flatten ++
        (collectEvents s).2) ∧
    filterEvents s shouldKeep =
      pre0 ++ (((((pre0, blk0) :: tail).map (·.2)).filter shouldKeep).flatten) ++
        (collectEvents s).2 := by
  constructor
  · rw [← h]
    exact (collectEventsFuel_decomp s.length s).symm
  · rw [filterEvents]
    simp only [h]

end IcsTransforms

namespace IcsTransforms

def sampleIcs : Str :=
  "BEGIN:VCALENDAR\r\nX\r\nBEGIN:VEVENT\r\nSUMMARY:Race\r\nEND:VEVENT\r\nBEGIN:VEVENT\r\nSUMMARY:Practice\r\nEND:VEVENT\r\nEND:VCALENDAR\r\n".data

def sampleHeader : Str := "BEGIN:VCALENDAR\r\nX\r\n".data

def raceBlock : Str := "BEGIN:VEVENT\r\nSUMMARY:Race\r\nEND:VEVENT\r\n".data

def practiceBlock : Str := "BEGIN:VEVENT\r\nSUMMARY:Practice\r\nEND:VEVENT\r\n".data

/-- Witness: a concrete two-event calendar with a predicate keeping the
`Race` event only. -/
theorem filterEvents_spec_witness :
    sampleIcs =
      ((((sampleHeader, raceBlock) :: [(([] : Str), practiceBlock)]).map
          (fun pb => pb.1 ++ pb.2)).flatten ++ (collectEvents sampleIcs).2) ∧
    filterEvents sampleIcs (fun b => strIncludes b "SUMMARY:Race".data) =
      sampleHeader ++
        (((((sampleHeader, raceBlock) :: [(([] : Str), practiceBlock)]).map
            (·.2)).filter (fun b => strIncludes b "SUMMARY:Race".data)).flatten) ++
        (collectEvents sampleIcs).2 :=
  filterEvents_spec sampleIcs (fun b => strIncludes b "SUMMARY:Race".data)
    sampleHeader raceBlock [([], practiceBlock)] (by decide)

end IcsTransforms

namespace CalendarProxy

/-! Embedding of the `upsertHeaderProp` closure from
`src/api/v1/calendars/[slug].ts`: lines are `List Char` values; `findIndex`
with `-1` fallback is `findIdx?`/`getD`; `splice(i, 0, x)` is `insertAt`. -/

def bvLine : Str := "BEGIN:VEVENT".data

def vcalLine : Str := "BEGIN:VCALENDAR".data

/-- JS `Array.prototype.splice(n, 0, x)` insertion (an index beyond the end
appends). -/
def insertAt : Nat → Str → List Str → List Str
  | _, x, [] => [x]
  | 0, x, l => x :: l
  | n + 1, x, a :: l => a :: insertAt n x l

/-- `headerEnd === -1 ? lines.length : headerEnd`. -/
def headerEndIndex (lines : List Str) : Nat :=
  (List.findIdx? (fun l => bvLine.isPrefixOf l) lines).getD lines.length

/-- The insertion point: right after the first `BEGIN:VCALENDAR` line of the
header, at the front when there is none. -/
def insertIndexOf (header : List Str) : Nat :=
  match List.findIdx? (fun l => l == vcalLine) header with
  | some b => b + 1
  | none => 0

/-- `upsertHeaderProp(lines, key, value)`. -/
def upsertHeaderProp (lines : List Str) (key value : Str) : List Str :=
  match List.findIdx? (fun l => (key ++ ":".data).isPrefixOf l)
      (lines.take (headerEndIndex lines)) with
  | some i =>
    (lines.take (headerEndIndex lines)).set i (key ++ ":".data ++ value) ++
      lines.drop (headerEndIndex lines)
  | none =>
    insertAt (insertIndexOf (lines.take (headerEndIndex lines)))
        (key ++ ":".data ++ value) (lines.take (headerEndIndex lines)) ++
      lines.drop (headerEndIndex lines)

theorem findIdx?_append_fail {α : Type} (p : α → Bool) {h : List α}
    (m : List α) (hall : ∀ x ∈ h, p x = false) :
    List.findIdx? p (h ++ m) =
      (List.findIdx? p m).map (fun i => i + h.length) := by
  rw [List.findIdx?_append, List.findIdx?_eq_none_iff.mpr hall]
  rfl

theorem take_findIdxOrLen_fail {α : Type} (p : α → Bool) (l : List α) :
    ∀ x ∈ l.take ((List.findIdx? p l).getD l.length), p x = false := by
  intro x hx
  cases hf : List.findIdx? p l with
  | none =>
    exact List.findIdx?_eq_none_iff.mp hf x (List.take_subset _ _ hx)
  | some i =>
    rw [hf] at hx
    obtain ⟨hlt, hpi, hjlt⟩ := List.findIdx?_eq_some_iff_getElem.mp hf
    obtain ⟨j, hj, hje⟩ := List.mem_iff_getElem.mp hx
    have hj2 : j < i := lt_of_lt_of_le hj (by simp [List.length_take])
    have hnp := hjlt j hj2
    rw [List.getElem_take] at hje
    rw [← hje] at *
    exact Bool.not_eq_true _ ▸ hnp

theorem idxOrLen_append_fail (p : Str → Bool) (H₁ rest : List Str)
    (hH : ∀ l ∈ H₁, p l = false)
    (h0 : (List.findIdx? p rest).getD rest.length = 0) :
    (List.findIdx? p (H₁ ++ rest)).getD (H₁ ++ rest).length = H₁.length := by
  rw [findIdx?_append_fail p rest hH]
  cases hf : List.findIdx? p rest with
  | some k =>
    have hk : k = 0 := by simpa [hf] using h0
    subst hk
    simp
  | none =>
    have hr : rest.length = 0 := by simpa [hf] using h0
    simp [hr]

theorem set_getElem?_self {α : Type} :
    ∀ (l : List α) (n : Nat) (a : α), l[n]? = some a → l.set n a = l
  | [], n, a, h => by simp at h
  | x :: t, 0, a, h => by
    simp only [List.getElem?_cons_zero, Option.some.injEq] at h
    simp [h]
  | x :: t, n + 1, a, h => by
    simp only [List.getElem?_cons_succ] at h
    simp [List.set, set_getElem?_self t n a h]

theorem insertAt_eq :
    ∀ (n : Nat) (l : List Str) (x : Str), n ≤ l.length →
      insertAt n x l = l.take n ++ x :: l.drop n
  | n, [], x, h => by
    have : n = 0 := Nat.le_zero.mp h
    subst this
    rfl
  | 0, a :: t, x, _ => rfl
  | n + 1, a :: t, x, h => by
    rw [insertAt, insertAt_eq n t x (Nat.le_of_succ_le_succ h)]
    rfl

/-- The part of the span with the scrutinee is below.  After one upsert the
line list splits as `H₁ ++ rest` where every header line fails the
`BEGIN:VEVENT` test, `rest` either is empty or begins with a
`BEGIN:VEVENT` line, the key-prefix scan of the new header finds index `i`,
and the line already there is the upserted line; a second upsert is then the
identity. -/
theorem upsert_second_is_id (H₁ rest : List Str) (key value : Str) (i : Nat)
    (hHbv : ∀ l ∈ H₁, bvLine.isPrefixOf l = false)
    (hrest0 : (List.findIdx? (fun l => bvLine.isPrefixOf l) rest).getD
        rest.length = 0)
    (hfind : List.findIdx? (fun l => (key ++ ":".data).isPrefixOf l) H₁ =
      some i)
    (hset : H₁.set i (key ++ ":".data ++ value) = H₁) :
    upsertHeaderProp (H₁ ++ rest) key value = H₁ ++ rest := by
  have he : headerEndIndex (H₁ ++ rest) = H₁.length :=
    idxOrLen_append_fail _ H₁ rest hHbv hrest0
  rw [upsertHeaderProp, he, List.take_left, List.drop_left, hfind]
  dsimp only
  rw [hset]

/-- C7 counterexample: with `key = "BEGIN"` and `value = "VEVENT"` on the
single-line calendar `["BEGIN:VCALENDAR"]`, the first upsert rewrites the
`BEGIN:VCALENDAR` line into `BEGIN:VEVENT` and the second then duplicates
it, so applying the upsert twice differs from applying it once. -/
theorem upsert_not_idempotent_counterexample :
    upsertHeaderProp
        (upsertHeaderProp ["BEGIN:VCALENDAR".data] "BEGIN".data "VEVENT".data)
        "BEGIN".data "VEVENT".data ≠
      upsertHeaderProp ["BEGIN:VCALENDAR".data] "BEGIN".data "VEVENT".data := by
  decide

end CalendarProxy

namespace CalendarProxy

/-- C7 amended: the upsert is idempotent for every line list, key and value
whose upserted line `key ++ ":" ++ value` does not itself start with
`BEGIN:VEVENT` (the counterexample above forces exactly this proviso; both
keys used by the endpoint, `X-WR-CALNAME` and `NAME`, satisfy it). -/
theorem upsertHeaderProp_idempotent (lines : List Str) (key value : Str)
    (hnb : bvLine.isPrefixOf (key ++ ":".data ++ value) = false) :
    upsertHeaderProp (upsertHeaderProp lines key value) key value =
      upsertHeaderProp lines key value := by
  have hp2new : (key ++ ":".data).isPrefixOf (key ++ ":".data ++ value) = true :=
    List.isPrefixOf_iff_prefix.mpr (List.prefix_append _ _)
  have hhdrbv : ∀ l ∈ lines.take (headerEndIndex lines),
      bvLine.isPrefixOf l = false := take_findIdxOrLen_fail _ lines
  have hrest0 : (List.findIdx? (fun l => bvLine.isPrefixOf l)
      (lines.drop (headerEndIndex lines))).getD
        (lines.drop (headerEndIndex lines)).length = 0 := by
    cases hf : List.findIdx? (fun l => bvLine.isPrefixOf l) lines with
    | none =>
      have he : headerEndIndex lines = lines.length := by
        rw [headerEndIndex, hf]
        rfl
      rw [he, List.drop_length]
      rfl
    | some i =>
      have he : headerEndIndex lines = i := by
        rw [headerEndIndex, hf]
        rfl
      obtain ⟨hlt, hpi, _⟩ := List.findIdx?_eq_some_iff_getElem.mp hf
      have h0 : List.findIdx? (fun l => bvLine.isPrefixOf l)
          (lines.drop i) = some 0 := by
        apply List.findIdx?_eq_some_iff_getElem.mpr
        refine ⟨?_, ?_, ?_⟩
        · simpa [List.length_drop] using Nat.sub_pos_of_lt hlt
        · simpa [List.getElem_drop] using hpi
        · intro j hj
          exact absurd hj (Nat.not_lt_zero j)
      rw [he, h0]
      rfl
  cases hA : List.findIdx? (fun l => (key ++ ":".data).isPrefixOf l)
      (lines.take (headerEndIndex lines)) with
  | some i =>
    obtain ⟨hilt, hpi, hjlt⟩ := List.findIdx?_eq_some_iff_getElem.mp hA
    have honce : upsertHeaderProp lines key value =
        (lines.take (headerEndIndex lines)).set i
            (key ++ ":".data ++ value) ++
          lines.drop (headerEndIndex lines) := by
      rw [upsertHeaderProp, hA]
    rw [honce]
    apply upsert_second_is_id
    · intro l hl
      rcases List.mem_or_eq_of_mem_set hl with h | h
      · exact hhdrbv l h
      · rw [h]
        exact hnb
    · exact hrest0
    · apply List.findIdx?_eq_some_iff_getElem.mpr
      refine ⟨by simpa using hilt, ?_, ?_⟩
      · rw [List.getElem_set_self]
        exact hp2new
      · intro j hj
        rw [List.getElem_set_ne (Nat.ne_of_gt hj)]
        exact hjlt j hj
    · rw [List.set_set]
  | none =>
    have hall : ∀ l ∈ lines.take (headerEndIndex lines),
        (key ++ ":".data).isPrefixOf l = false :=
      List.findIdx?_eq_none_iff.mp hA
    have hins : insertIndexOf (lines.take (headerEndIndex lines)) ≤
        (lines.take (headerEndIndex lines)).length := by
      rw [insertIndexOf]
      cases hv : List.findIdx? (fun l => l == vcalLine)
          (lines.take (headerEndIndex lines)) with
      | none => exact Nat.zero_le _
      | some b =>
        obtain ⟨hblt, _, _⟩ := List.findIdx?_eq_some_iff_getElem.mp hv
        exact hblt
    have hlentake : ((lines.take (headerEndIndex lines)).take
        (insertIndexOf (lines.take (headerEndIndex lines)))).length =
        insertIndexOf (lines.take (headerEndIndex lines)) := by
      rw [List.length_take]
      exact Nat.min_eq_left hins
    have hinseq := insertAt_eq _ (lines.take (headerEndIndex lines))
      (key ++ ":".data ++ value) hins
    have honce : upsertHeaderProp lines key value =
        insertAt (insertIndexOf (lines.take (headerEndIndex lines)))
          (key ++ ":".data ++ value) (lines.take (headerEndIndex lines)) ++
          lines.drop (headerEndIndex lines) := by
      rw [upsertHeaderProp, hA]
    rw [honce, hinseq]
    apply upsert_second_is_id
    · intro l hl
      rcases List.mem_append.mp hl with h | h
      · exact hhdrbv l (List.take_subset _ _ h)
      · rcases List.mem_cons.mp h with h | h
        · rw [h]
          exact hnb
        · exact hhdrbv l (List.drop_subset _ _ h)
    · exact hrest0
    · rw [findIdx?_append_fail _ _
        (fun x hx => hall x (List.take_subset _ _ hx))]
      have h0 : List.findIdx? (fun l => (key ++ ":".data).isPrefixOf l)
          ((key ++ ":".data ++ value) ::
            (lines.take (headerEndIndex lines)).drop
              (insertIndexOf (lines.take (headerEndIndex lines)))) =
          some 0 := by
        apply List.findIdx?_eq_some_iff_getElem.mpr
        refine ⟨by simp, ?_, ?_⟩
        · simp only [List.getElem_cons_zero]
          exact hp2new
        · intro j hj
          exact absurd hj (Nat.not_lt_zero j)
      rw [h0, Option.map_some', hlentake, Nat.zero_add]
    · apply set_getElem?_self
      rw [List.getElem?_append_right (le_of_eq hlentake)]
      rw [hlentake, Nat.sub_self]
      simp

/-- Witness: the idempotence theorem at a concrete calendar and the key the
endpoint actually uses. -/
theorem upsertHeaderProp_idempotent_witness :
    upsertHeaderProp (upsertHeaderProp
        ["BEGIN:VCALENDAR".data, "PRODID:x".data, "BEGIN:VEVENT".data,
          "END:VEVENT".data] "X-WR-CALNAME".data "F1".data)
        "X-WR-CALNAME".data "F1".data =
      upsertHeaderProp
        ["BEGIN:VCALENDAR".data, "PRODID:x".data, "BEGIN:VEVENT".data,
          "END:VEVENT".data] "X-WR-CALNAME".data "F1".data :=
  upsertHeaderProp_idempotent _ _ _ (by decide)

end CalendarProxy

namespace GeoSearch

/-! Embedding of `rankByDistance` from `src/lib/postoffice-fetcher.ts`.
Coordinates and distances are rationals; the haversine `calculateDistance`
itself computes with transcendental floating-point functions (sin/cos/atan2)
and is therefore abstracted as the `calcDist` argument — every property below
is proved for an arbitrary distance function, hence in particular for the
haversine one.  `Array.prototype.sort` (stable, ES2019) with the comparator
`a.distance - b.distance` is modelled by the stable `mergeSort` on `≤` over
the annotated distances. -/

structure Item where
  id : String
  latitude : Option ℚ
  longitude : Option ℚ
  distance : Option ℚ
deriving DecidableEq

/-- `item.latitude !== null && item.longitude !== null`. -/
def hasCoords (it : Item) : Bool := it.latitude.isSome && it.longitude.isSome

/-- `Number.MAX_SAFE_INTEGER`. -/
def maxSafeInteger : ℚ := 9007199254740991

/-- The `.map` step: attach `distance = calculateDistance(lat, lng, item.lat,
item.lon)`. -/
def annotate (calcDist : ℚ → ℚ → ℚ → ℚ → ℚ) (lat lng : ℚ) (it : Item) :
    Item :=
  ⟨it.id, it.latitude, it.longitude,
    some (calcDist lat lng (it.latitude.getD 0) (it.longitude.getD 0))⟩

def distLe (a b : Item) : Bool :=
  decide ((a.distance.getD 0) ≤ (b.distance.getD 0))

/-- `rankByDistance`: drop unresolvable coordinates, annotate distances,
drop beyond-radius candidates, sort ascending, truncate to `limit`. -/
def rankByDistance (calcDist : ℚ → ℚ → ℚ → ℚ → ℚ) (items : List Item)
    (lat lng radiusKm : ℚ) (limit : Nat) : List Item :=
  List.take limit
    (List.mergeSort
      (List.filter
        (fun (it : Item) =>
          decide ((it.distance.getD maxSafeInteger) ≤ radiusKm * 1000))
        (List.map (annotate calcDist lat lng) (List.filter hasCoords items)))
      distLe)

theorem distLe_trans (a b c : Item) (h1 : distLe a b = true)
    (h2 : distLe b c = true) : distLe a c = true := by
  simp only [distLe, decide_eq_true_iff] at *
  exact le_trans h1 h2

theorem distLe_total (a b : Item) : (distLe a b || distLe b a) = true := by
  simp only [distLe, Bool.or_eq_true, decide_eq_true_iff]
  exact le_total _ _

/-- C8: for every distance function, every candidate list, center, radius and
limit: (1) at most `limit` results; (2) every result is within
`radiusKm * 1000` meters (boundary inclusive: the filter keeps `≤`); (3)
results are sorted ascending by the annotated distance; (4) the result is the
`limit`-prefix of a sorted permutation of ALL in-radius coordinate-resolved
candidates — i.e. beyond-radius candidates are excluded before truncation and
cannot displace an in-radius one — and every annotated candidate within the
radius (including at exactly `radiusKm * 1000`) appears in that pre-truncation
list. -/
theorem rankByDistance_spec (calcDist : ℚ → ℚ → ℚ → ℚ → ℚ)
    (items : List Item) (lat lng radiusKm : ℚ) (limit : Nat) :
    (rankByDistance calcDist items lat lng radiusKm limit).length ≤ limit ∧
    (∀ e ∈ rankByDistance calcDist items lat lng radiusKm limit,
      e.distance.getD maxSafeInteger ≤ radiusKm * 1000) ∧
    (rankByDistance calcDist items lat lng radiusKm limit).Pairwise
      (fun a b => a.distance.getD 0 ≤ b.distance.getD 0) ∧
    ∃ sortedAll : List Item,
      sortedAll.Perm (((items.filter hasCoords).map
          (annotate calcDist lat lng)).filter
        (fun it => decide ((it.distance.getD maxSafeInteger) ≤
          radiusKm * 1000))) ∧
      sortedAll.Pairwise (fun a b => a.distance.getD 0 ≤ b.distance.getD 0) ∧
      rankByDistance calcDist items lat lng radiusKm limit =
        sortedAll.take limit ∧
      (∀ e ∈ (items.filter hasCoords).map (annotate calcDist lat lng),
        e.distance.getD maxSafeInteger ≤ radiusKm * 1000 → e ∈ sortedAll) := by
  have hperm := List.mergeSort_perm
    (((items.filter hasCoords).map (annotate calcDist lat lng)).filter
      (fun it => decide ((it.distance.getD maxSafeInteger) ≤ radiusKm * 1000)))
    distLe
  have hsorted := List.sorted_mergeSort distLe_trans distLe_total
    (((items.filter hasCoords).map (annotate calcDist lat lng)).filter
      (fun it => decide ((it.distance.getD maxSafeInteger) ≤ radiusKm * 1000)))
  have hsorted' := hsorted.imp (fun h => by
    simpa [distLe, decide_eq_true_iff] using h)
  simp only [rankByDistance]
  refine ⟨?_, ?_, ?_, ?_⟩
  · exact List.length_take_le _ _
  · intro e he
    have hmem : e ∈ (((items.filter hasCoords).map
        (annotate calcDist lat lng)).filter
      (fun it => decide ((it.distance.getD maxSafeInteger) ≤
        radiusKm * 1000))) :=
      hperm.subset (List.take_subset _ _ he)
    have := (List.mem_filter.mp hmem).2
    simpa [decide_eq_true_iff] using this
  · exact hsorted'.sublist (List.take_sublist _ _)
  · refine ⟨_, hperm, hsorted', rfl, ?_⟩
    intro e he hle
    apply (hperm.mem_iff).mpr
    apply List.mem_filter.mpr
    exact ⟨he, by simpa [decide_eq_true_iff] using hle⟩

/-- Witness: a single candidate whose distance is exactly `radiusKm * 1000`
(the boundary) is kept and within the bound. -/
theorem rankByDistance_spec_witness :
    ((⟨"a", some 1000, some 2, some 1000⟩ : Item).distance.getD maxSafeInteger)
      ≤ (1 : ℚ) * 1000 := by
  have h := (rankByDistance_spec (fun _ _ la _ => la)
    [⟨"a", some 1000, some 2, none⟩] 0 0 1 5).2.1
  apply h
  have h1 : List.filter
      (fun it => decide ((it.distance.getD maxSafeInteger) ≤ (1 : ℚ) * 1000))
      (List.map (annotate (fun _ _ la _ => la) 0 0)
        (List.filter hasCoords
          [(⟨"a", some 1000, some 2, none⟩ : Item)])) =
      [⟨"a", some 1000, some 2, some 1000⟩] := by
    simp [hasCoords, annotate]
  have h2 : rankByDistance (fun _ _ la _ => la)
      [⟨"a", some 1000, some 2, none⟩] 0 0 1 5 =
      [⟨"a", some 1000, some 2, some 1000⟩] := by
    rw [rankByDistance, h1]
    simp
  rw [h2]
  exact List.mem_singleton.mpr rfl

end GeoSearch

namespace Flashscore

/-! Embedding of `src/lib/sport-results-scraper.ts` (`parseFlashscoreData`,
`extractFlashscoreData`, `scrapeSportResults`) and `normalizeTeamName` from
the shared sport-results types.  Regexes are modelled as explicit scans with
first-match/greedy semantics.  `toISOString`'s date part is modelled as the
UTC epoch-day number and the fr-FR locale clock time as minutes of the
server-local day (`tz` offset); the record id built from `Date.now()` uses
the explicit `nowMs`.  The per-block `try/catch` of the source makes the
parse total over blocks, which the model reflects by being a total
function. -/

def notDelim (c : Char) : Bool := c ≠ '¬' && c ≠ '~'

/-- First match of `LIT(<good>+)` scanning left to right (a position where
the literal is followed by an empty run is skipped, as regex search
continues). -/
def findFieldRun (lit : Str) (good : Char → Bool) : Str → Option Str
  | [] => none
  | s@(_ :: rest) =>
    (if lit.isPrefixOf s then
      let run := (s.drop lit.length).takeWhile good
      if run ≠ [] then some run else none
     else none).orElse (fun _ => findFieldRun lit good rest)

/-- One position of the alternate team pattern
`TAG[^¬]*¬[^¬]*¬AF÷([^¬~]+)`. -/
def findAltTeamAt (tag : Str) (s : Str) : Option Str :=
  if tag.isPrefixOf s then
    let r1 := s.drop tag.length
    let a := r1.takeWhile (· ≠ '¬')
    match r1.drop a.length with
    | '¬' :: r2 =>
      let b := r2.takeWhile (· ≠ '¬')
      match r2.drop b.length with
      | '¬' :: r3 =>
        if "AF÷".data.isPrefixOf r3 then
          let run := (r3.drop 3).takeWhile notDelim
          if run ≠ [] then some run else none
        else none
      | _ => none
    | _ => none
  else none

def findAltTeam (tag : Str) : Str → Option Str
  | [] => none
  | s@(_ :: rest) => (findAltTeamAt tag s).orElse (fun _ => findAltTeam tag rest)

/-- First match of `(\d+)`. -/
def findDigitsRun : Str → Option Str
  | [] => none
  | s@(c :: rest) =>
    if c.isDigit then some (s.takeWhile Char.isDigit) else findDigitsRun rest

/-- The `LIGUE1_TEAMS` alias table. -/
def LIGUE1_TEAMS : List (String × String) :=
  [("paris saint-germain", "PSG"), ("paris", "PSG"), ("psg", "PSG"),
   ("olympique de marseille", "OM"), ("marseille", "OM"), ("om", "OM"),
   ("olympique lyonnais", "OL"), ("lyon", "OL"), ("ol", "OL"),
   ("as monaco", "Monaco"), ("monaco", "Monaco"), ("asm", "Monaco"),
   ("lille", "LOSC"), ("losc", "LOSC"),
   ("rc lens", "Lens"), ("lens", "Lens"), ("rcl", "Lens"),
   ("stade rennais", "Rennes"), ("rennes", "Rennes"), ("srfc", "Rennes"),
   ("nice", "Nice"), ("ogc nice", "Nice"), ("ogcn", "Nice"),
   ("stade brestois", "Brest"), ("brest", "Brest"), ("sb29", "Brest"),
   ("stade de reims", "Reims"), ("reims", "Reims"),
   ("toulouse", "Toulouse"), ("tfc", "Toulouse"),
   ("montpellier", "Montpellier"), ("mhsc", "Montpellier"),
   ("rc strasbourg", "Strasbourg"), ("strasbourg", "Strasbourg"),
   ("rcs", "Strasbourg"),
   ("fc nantes", "Nantes"), ("nantes", "Nantes"), ("fcn", "Nantes"),
   ("aj auxerre", "Auxerre"), ("auxerre", "Auxerre"), ("aja", "Auxerre"),
   ("le havre", "Le Havre"), ("hac", "Le Havre"),
   ("angers", "Angers"), ("sco", "Angers"),
   ("as saint-etienne", "Saint-Etienne"), ("saint-etienne", "Saint-Etienne"),
   ("asse", "Saint-Etienne")]

/-- `normalizeTeamName`: alias-table hit on the lower-cased trimmed name,
otherwise the trimmed raw name. -/
def normalizeTeamName (raw : Str) : Str :=
  let lower := strTrim (raw.map Char.toLower)
  match LIGUE1_TEAMS.find? (fun p => p.1.data == lower) with
  | some p => p.2.data
  | none => strTrim raw

inductive MatchStatus where
  | finished
  | live
  | halftime
  | scheduled
  | postponed
  | cancelled
deriving DecidableEq, Repr

/-- The id-independent content of one parsed match record. -/
structure MatchCore where
  matchId : Option Str
  homeTeam : Str
  awayTeam : Str
  homeScore : Int
  awayScore : Int
  dateDays : Int
  timeMin : Option Int
  status : MatchStatus
  competition : String
  matchday : Option Str
deriving DecidableEq, Repr

structure MatchResult where
  id : Str
  core : MatchCore
deriving DecidableEq, Repr

/-- One block of `parseFlashscoreData`'s loop body, up to the id (which
depends on the accumulated result count). -/
def parseBlock (tz nowMs : Int) (b : Str) : Option MatchCore :=
  if b.length < 10 then none
  else
    let matchId := findFieldRun "AA÷".data notDelim b
    let timestamp := findFieldRun "AD÷".data Char.isDigit b
    let homeTeamF :=
      match findFieldRun "CX÷".data notDelim b with
      | some h => some h
      | none => findAltTeam "WM÷".data b
    let awayTeamF :=
      match findFieldRun "AF÷".data notDelim b with
      | some h => some h
      | none => findAltTeam "WN÷".data b
    let statusF := findFieldRun "AB÷".data Char.isDigit b
    let roundF := findFieldRun "ER÷".data notDelim b
    match findFieldRun "AG÷".data Char.isDigit b,
          findFieldRun "AH÷".data Char.isDigit b with
    | some hs, some as_ =>
      let dateDays :=
        match timestamp with
        | some ts => Int.fdiv (Metadata.digitsToInt ts * 1000) 86400000
        | none => Int.fdiv nowMs 86400000
      let timeMin := timestamp.map
        (fun ts => Int.emod (Int.fdiv (Metadata.digitsToInt ts * 1000 + tz) 60000) 1440)
      let status :=
        match statusF with
        | some sc =>
          if Metadata.digitsToInt sc = 3 ∨ Metadata.digitsToInt sc = 100 then MatchStatus.finished
          else if Metadata.digitsToInt sc = 2 then MatchStatus.live
          else if Metadata.digitsToInt sc = 1 then MatchStatus.scheduled
          else MatchStatus.finished
        | none => MatchStatus.finished
      let home := normalizeTeamName (strTrim (homeTeamF.getD []))
      let away := normalizeTeamName (strTrim (awayTeamF.getD []))
      if home = [] ∨ away = [] then none
      else
        let matchday := (roundF.bind findDigitsRun).map
          (fun ds => "Journée ".data ++ ds)
        some ⟨matchId, home, away, Metadata.digitsToInt hs, Metadata.digitsToInt as_,
          dateDays, timeMin, status, "Ligue 1", matchday⟩
    | _, _ => none

/-- `flash_${Date.now()}_${results.length}` fallback id. -/
def attachId (nowMs : Int) (idx : Nat) (core : MatchCore) : MatchResult :=
  ⟨core.matchId.getD
      ("flash_".data ++ (toString nowMs).data ++ "_".data ++
        (toString idx).data),
    core⟩

def matchDelim : Str := "~AA÷".data

/-- JS `data.split('~AA÷')`; the fuel equals the input length, which every
step strictly decreases below, so the exhaustion branch is unreachable. -/
def splitBlocksAux : Nat → Str → Str → List Str
  | 0, s, acc => [acc.reverse ++ s]
  | fuel + 1, s, acc =>
    match s with
    | [] => [acc.reverse]
    | c :: rest =>
      if matchDelim.isPrefixOf s then
        acc.reverse :: splitBlocksAux fuel (s.drop matchDelim.length) []
      else splitBlocksAux fuel rest (c :: acc)

def splitBlocks (data : Str) : List Str := splitBlocksAux data.length data []

/-- `parseFlashscoreData`: per-block tolerant extraction, accumulating
records (the fallback id depends on the count built so far). -/
def parseFlashscoreData (tz nowMs : Int) (data : Str) : List MatchResult :=
  (splitBlocks data).foldl
    (fun acc b =>
      match parseBlock tz nowMs b with
      | none => acc
      | some core => acc ++ [attachId nowMs acc.length core]) []

theorem foldBlocks_map_core (tz nowMs : Int) :
    ∀ (bs : List Str) (acc : List MatchResult),
      (bs.foldl (fun acc b =>
        match parseBlock tz nowMs b with
        | none => acc
        | some core => acc ++ [attachId nowMs acc.length core]) acc).map
          MatchResult.core =
        acc.map MatchResult.core ++ bs.filterMap (parseBlock tz nowMs) := by
  intro bs
  induction bs with
  | nil => intro acc; simp
  | cons b t ih =>
    intro acc
    cases hpb : parseBlock tz nowMs b with
    | none =>
      simp only [List.foldl_cons, List.filterMap_cons, hpb]
      exact ih acc
    | some core =>
      simp only [List.foldl_cons, List.filterMap_cons, hpb]
      rw [ih (acc ++ [attachId nowMs acc.length core])]
      simp [attachId]

/-- C9: a block whose `AG÷`/`AH÷` score field is missing contributes no
record (and the total parse function cannot throw), while the records of the
whole parse are exactly the per-block successes in block order — a malformed
block never disturbs the other blocks. -/
theorem parseFlashscoreData_skips_malformed (tz nowMs : Int) (data : Str) :
    (∀ b ∈ splitBlocks data,
      (findFieldRun "AG÷".data Char.isDigit b = none ∨
        findFieldRun "AH÷".data Char.isDigit b = none) →
      parseBlock tz nowMs b = none) ∧
    (parseFlashscoreData tz nowMs data).map MatchResult.core =
      (splitBlocks data).filterMap (parseBlock tz nowMs) := by
  constructor
  · intro b _ hmiss
    by_cases hlen : b.length < 10
    · simp [parseBlock, hlen]
    · rcases hmiss with h | h
      · simp [parseBlock, hlen, h]
      · cases hhs : findFieldRun "AG÷".data Char.isDigit b <;>
          simp [parseBlock, hlen, h, hhs]
  · exact foldBlocks_map_core tz nowMs (splitBlocks data) []

def sampleFeed : Str :=
  "~AA÷id1¬AD÷1700000000¬CX÷Nantes¬AF÷Lens¬AG÷2¬AH÷1¬AB÷3~AA÷badblocknoscores".data

/-- Witness: in a concrete feed with one well-formed and one score-less
block, the score-less block yields no record while the parse still returns
exactly the good block's record. -/
theorem parseFlashscoreData_skips_malformed_witness :
    parseBlock 0 0 "badblocknoscores".data = none ∧
    (parseFlashscoreData 0 0 sampleFeed).map MatchResult.core =
      (splitBlocks sampleFeed).filterMap (parseBlock 0 0) := by
  have h := parseFlashscoreData_skips_malformed 0 0 sampleFeed
  exact ⟨h.1 "badblocknoscores".data (by decide) (Or.inl (by decide)), h.2⟩

end Flashscore

namespace Flashscore

/-- Backtick (the template-literal delimiter of the first extraction
pattern). -/
def btick : Char := Char.ofNat 96

/-- Single quote. -/
def quoteChar : Char := Char.ofNat 39

/-- The literal head of pattern 1,
`cjs.initialFeeds['results']`. -/
def lit1 : Str :=
  "cjs.initialFeeds[".data ++ [quoteChar] ++ "results".data ++ [quoteChar, ']']

/-- The tail of pattern 1 after the literal:
`\s*=\s*{[^}]*data:\s*` + backtick + `([^`]+)` + backtick, with the greedy
`[^}]*` backtracking from the longest candidate.  Returns the capture. -/
def matchPat1After (r : Str) : Option Str :=
  match r.dropWhile Char.isWhitespace with
  | '=' :: r2 =>
    match r2.dropWhile Char.isWhitespace with
    | '{' :: r4 =>
      let run := r4.takeWhile (· ≠ '}')
      (List.range (run.length + 1)).reverse.findSome? (fun len =>
        let after := r4.drop len
        if "data:".data.isPrefixOf after then
          match (after.drop 5).dropWhile Char.isWhitespace with
          | c :: r5 =>
            if c = btick then
              let cap := r5.takeWhile (· ≠ btick)
              if cap ≠ [] ∧ r5.drop cap.length ≠ [] then some cap else none
            else none
          | [] => none
        else none)
    | _ => none
  | _ => none

def findPat1 : Str → Option Str
  | [] => none
  | s@(_ :: rest) =>
    (if lit1.isPrefixOf s then matchPat1After (s.drop lit1.length)
     else none).orElse (fun _ => findPat1 rest)

/-- Pattern 2, `SA÷1¬~ZA÷[^`]*` (no capture group: the whole match). -/
def lit2 : Str := "SA÷1¬~ZA÷".data

def findPat2 : Str → Option Str
  | [] => none
  | s@(_ :: rest) =>
    (if lit2.isPrefixOf s then
      some (lit2 ++ (s.drop lit2.length).takeWhile (· ≠ btick))
     else none).orElse (fun _ => findPat2 rest)

/-- Pattern 3, `~AA÷[^`]+`. -/
def findPat3 : Str → Option Str
  | [] => none
  | s@(_ :: rest) =>
    (if matchDelim.isPrefixOf s then
      let run := (s.drop matchDelim.length).takeWhile (· ≠ btick)
      if run ≠ [] then some (matchDelim ++ run) else none
     else none).orElse (fun _ => findPat3 rest)

/-- The character class of the fallback pattern `[SA÷|~AA÷][^<]{100,}`. -/
def classChars : Str := ['S', 'A', '÷', '|', '~']

def findPat4 : Str → Option Str
  | [] => none
  | c :: rest =>
    (if classChars.contains c then
      let run := rest.takeWhile (· ≠ '<')
      if 100 ≤ run.length then some (c :: run) else none
     else none).orElse (fun _ => findPat4 rest)

/-- `extractFlashscoreData`: the ordered pattern cascade
(`match[1] || match[0]`), then the data-block fallback. -/
def extractFlashscoreData (html : Str) : Option Str :=
  match findPat1 html with
  | some cap => some cap
  | none =>
    match findPat2 html with
    | some m => some m
    | none =>
      match findPat3 html with
      | some m => some m
      | none => findPat4 html

/-- Outcome of the one `fetch` of `scrapeSportResults`: the promise rejects,
or resolves with a status and body. -/
inductive FetchOutcome where
  | fetchErr (msg : String)
  | resp (status : Nat) (body : Str)

structure SportResultsResponse where
  competition : String
  results : List MatchResult
  lastUpdatedMs : Int
  source : String
deriving DecidableEq, Repr

/-- Sort comparator `b.date.localeCompare(a.date) || b.time.localeCompare(a.time)`
(most recent first; the empty time string sorts below any `HH:mm`). -/
def matchLe (a b : MatchResult) : Bool :=
  decide (b.core.dateDays < a.core.dateDays ∨
    (b.core.dateDays = a.core.dateDays ∧
      b.core.timeMin.getD (-1) ≤ a.core.timeMin.getD (-1)))

/-- The `try` body of `scrapeSportResults`; `throw`s become `Except.error`. -/
def scrapeBody (tz nowMs : Int) (outcome : FetchOutcome) :
    Except String SportResultsResponse :=
  match outcome with
  | .fetchErr m => .error m
  | .resp status body =>
    if ¬ (200 ≤ status ∧ status ≤ 299) then
      .error ("Flashscore fetch failed: " ++ toString status)
    else
      match extractFlashscoreData body with
      | none => .ok ⟨"Ligue 1", [], nowMs, "flashscore.fr"⟩
      | some data =>
        .ok ⟨"Ligue 1",
          (List.mergeSort (parseFlashscoreData tz nowMs data) matchLe).take 30,
          nowMs, "flashscore.fr"⟩

/-- `scrapeSportResults`: the whole body is inside `try/catch`, and the catch
returns the empty well-formed response. -/
def scrapeSportResults (tz nowMs : Int) (outcome : FetchOutcome) :
    SportResultsResponse :=
  match scrapeBody tz nowMs outcome with
  | .ok r => r
  | .error _ => ⟨"Ligue 1", [], nowMs, "flashscore.fr"⟩

/-- C10: `scrapeSportResults` never propagates an error: a rejected fetch, a
non-2xx status, or missing embedded data each yield the empty well-formed
response, and for every outcome whatsoever the response carries
`competition = "Ligue 1"`, `source = "flashscore.fr"` and the current
`lastUpdated` stamp. -/
theorem scrapeSportResults_failsafe :
    (∀ (tz nowMs : Int) (msg : String),
      scrapeSportResults tz nowMs (.fetchErr msg) =
        ⟨"Ligue 1", [], nowMs, "flashscore.fr"⟩) ∧
    (∀ (tz nowMs : Int) (status : Nat) (body : Str),
      ¬ (200 ≤ status ∧ status ≤ 299) →
      scrapeSportResults tz nowMs (.resp status body) =
        ⟨"Ligue 1", [], nowMs, "flashscore.fr"⟩) ∧
    (∀ (tz nowMs : Int) (status : Nat) (body : Str),
      200 ≤ status → status ≤ 299 → extractFlashscoreData body = none →
      scrapeSportResults tz nowMs (.resp status body) =
        ⟨"Ligue 1", [], nowMs, "flashscore.fr"⟩) ∧
    (∀ (tz nowMs : Int) (outcome : FetchOutcome),
      (scrapeSportResults tz nowMs outcome).competition = "Ligue 1" ∧
      (scrapeSportResults tz nowMs outcome).source = "flashscore.fr" ∧
      (scrapeSportResults tz nowMs outcome).lastUpdatedMs = nowMs) := by
  refine ⟨fun tz nowMs msg => rfl, ?_, ?_, ?_⟩
  · intro tz nowMs status body hbad
    rw [scrapeSportResults, scrapeBody]
    rw [if_pos hbad]
  · intro tz nowMs status body h1 h2 hex
    rw [scrapeSportResults, scrapeBody, if_neg (by push_neg; omega), hex]
  · intro tz nowMs outcome
    rw [scrapeSportResults]
    cases outcome with
    | fetchErr m => exact ⟨rfl, rfl, rfl⟩
    | resp status body =>
      rw [scrapeBody]
      by_cases hok : (200 ≤ status ∧ status ≤ 299)
      · rw [if_neg (by simpa using hok)]
        cases hex : extractFlashscoreData body with
        | none => exact ⟨rfl, rfl, rfl⟩
        | some data => exact ⟨rfl, rfl, rfl⟩
      · rw [if_pos hok]
        exact ⟨rfl, rfl, rfl⟩

/-- Witness: a 404 response and a 200 response whose body has no extractable
data block both produce the empty well-formed response. -/
theorem scrapeSportResults_failsafe_witness :
    scrapeSportResults 0 42 (.resp 404 "not found".data) =
      ⟨"Ligue 1", [], 42, "flashscore.fr"⟩ ∧
    scrapeSportResults 0 42 (.resp 200 "hello world".data) =
      ⟨"Ligue 1", [], 42, "flashscore.fr"⟩ :=
  ⟨scrapeSportResults_failsafe.2.1 0 42 404 "not found".data (by decide),
    scrapeSportResults_failsafe.2.2.1 0 42 200 "hello world".data
      (by decide) (by decide) (by decide)⟩

end Flashscore
